import Mathlib

/-!
Shallow embedding of the `rust_sim` density-matrix quantum simulator
(`density_matrix.rs`, `gates.rs`, `noise_model.rs`, `simulator.rs`).

Machine floats (`f64`, `Complex<f64>`) are modelled by real and complex
numbers; `nalgebra::DMatrix<Complex<f64>>` is modelled by total functions
`ℕ → ℕ → ℂ` together with the explicit dimension arguments the code carries
in the matrix objects (entries outside the stored range are 0).
-/

noncomputable section

/-- Model of `DMatrix<Complex<f64>>`: entries as a total function; the
dimension travels separately (as it does in the `DMatrix` header). -/
abbrev Mat : Type := ℕ → ℕ → ℂ

/-- `DMatrix::from_row_slice(2, 2, [a, b, c, d])`. Entries outside the 2×2
block are 0 (they do not exist in the `DMatrix`). -/
def mat2 (a b c d : ℂ) : Mat := fun i j =>
  if i = 0 ∧ j = 0 then a
  else if i = 0 ∧ j = 1 then b
  else if i = 1 ∧ j = 0 then c
  else if i = 1 ∧ j = 1 then d
  else 0

/-- Matrix product of `d × d` matrices (`nalgebra`'s `*`). -/
def matMul (d : ℕ) (A B : Mat) : Mat :=
  fun i j => ∑ l ∈ Finset.range d, A i l * B l j

/-- Entrywise sum (`nalgebra`'s `+=`). -/
def matAdd (A B : Mat) : Mat := fun i j => A i j + B i j

/-- Conjugate transpose (`.adjoint()`). -/
def adjointM (A : Mat) : Mat := fun i j => (starRingEnd ℂ) (A j i)

/-- Trace of the leading `d × d` block (`.trace()`). -/
def traceN (d : ℕ) (A : Mat) : ℂ := ∑ i ∈ Finset.range d, A i i

/-- The `d × d` identity matrix (zero outside the block). -/
def idN (d : ℕ) : Mat := fun i j => if i = j ∧ i < d then 1 else 0

/-- The all-zero matrix (`DMatrix::zeros`). -/
def zeroM : Mat := fun _ _ => 0

/-- `A` has no nonzero entry outside its leading `d × d` block.  Every
matrix the code builds satisfies this for its nominal dimension. -/
def matBounded (d : ℕ) (A : Mat) : Prop :=
  ∀ i j, d ≤ i ∨ d ≤ j → A i j = 0

/-! ## `gates.rs` -/

/-- `pauli_x()` -/
def pauli_x : Mat := mat2 0 1 1 0

/-- `pauli_y()`; `Complex::new(0.0, -1.0)` is `-I`, `Complex::new(0.0, 1.0)` is `I`. -/
def pauli_y : Mat := mat2 0 (-Complex.I) Complex.I 0

/-- `pauli_z()` -/
def pauli_z : Mat := mat2 1 0 0 (-1)

/-- `hadamard()`: `factor = 1.0 / 2.0_f64.sqrt()`. -/
def hadamard : Mat :=
  mat2 (1 / Real.sqrt 2 : ℝ) (1 / Real.sqrt 2 : ℝ)
       (1 / Real.sqrt 2 : ℝ) (-(1 / Real.sqrt 2 : ℝ) : ℝ)

/-- `identity()` -/
def identity : Mat := mat2 1 0 0 1

/-- `rx(theta)`: entries `cos(θ/2)` and `-i·sin(θ/2)`. -/
def rx (theta : ℝ) : Mat :=
  mat2 (Real.cos (theta / 2) : ℝ) (-(Real.sin (theta / 2) : ℝ) * Complex.I)
       (-(Real.sin (theta / 2) : ℝ) * Complex.I) (Real.cos (theta / 2) : ℝ)

/-- `ry(theta)` -/
def ry (theta : ℝ) : Mat :=
  mat2 (Real.cos (theta / 2) : ℝ) (-(Real.sin (theta / 2)) : ℝ)
       (Real.sin (theta / 2) : ℝ) (Real.cos (theta / 2) : ℝ)

/-- `rz(theta)`: `Complex::new(0.0, ∓θ/2).exp()`. -/
def rz (theta : ℝ) : Mat :=
  mat2 (Complex.exp ((-(theta / 2) : ℝ) * Complex.I)) 0
       0 (Complex.exp ((theta / 2 : ℝ) * Complex.I))

/-- `DMatrix::from_row_slice(4, 4, ...)`. -/
def mat4 (r0 r1 r2 r3 : ℂ × ℂ × ℂ × ℂ) : Mat := fun i j =>
  let row := if i = 0 then some r0 else if i = 1 then some r1
             else if i = 2 then some r2 else if i = 3 then some r3 else none
  match row with
  | none => 0
  | some (a, b, c, d) =>
    if j = 0 then a else if j = 1 then b else if j = 2 then c
    else if j = 3 then d else 0

/-- `cnot()`: the fixed 4×4 CNOT block (defined in the catalog, the
simulator instead uses `build_cnot_unitary`). -/
def cnot : Mat :=
  mat4 (1, 0, 0, 0) (0, 1, 0, 0) (0, 0, 0, 1) (0, 0, 1, 0)

/-- `cz()`: the fixed 4×4 CZ block (defined in the catalog but never
dispatched by `QuantumSimulator::apply_gate`). -/
def cz : Mat :=
  mat4 (1, 0, 0, 0) (0, 1, 0, 0) (0, 0, 1, 0) (0, 0, 0, -1)

/-- `kron(a, b)` where `b` is `p × q`:
`result[(i*p+k, j*q+l)] = a[(i,j)] * b[(k,l)]`, i.e. entry `(r, c)` is
`a(r/p, c/q) * b(r%p, c%q)`. -/
def kron (p q : ℕ) (a b : Mat) : Mat :=
  fun r c => a (r / p) (c / q) * b (r % p) (c % q)

/-- `build_single_qubit_unitary(gate, wire, num_qubits)`: seed with the gate
(if `wire == 0`) or the identity, then fold `kron` over wires `1..num_qubits`. -/
def build_single_qubit_unitary (gate : Mat) (wire num_qubits : ℕ) : Mat :=
  (List.range' 1 (num_qubits - 1)).foldl
    (fun result i => kron 2 2 result (if i = wire then gate else identity))
    (if wire = 0 then gate else identity)

/-- The basis-index permutation of `build_cnot_unitary`'s loop body:
the row `j` that receives a 1 in column `i`.  Faithful only for
`control, target < num_qubits`: the Rust `num_qubits - 1 - wire` is a
`usize` subtraction that aborts on overflow in debug builds, while this
model's truncated ℕ subtraction is total. -/
def cnot_out (control target num_qubits i : ℕ) : ℕ :=
  let control_bit := (i >>> (num_qubits - 1 - control)) &&& 1
  if control_bit = 1 then i ^^^ (1 <<< (num_qubits - 1 - target)) else i

/-- `build_cnot_unitary(control, target, num_qubits)`: starts from zeros and
sets `result[(j, i)] = 1` for each column `i < dim` with `j = cnot_out i`;
`dim = 1 << num_qubits = 2 ^ num_qubits`.  Faithful only for in-range
wires: for an out-of-range target the Rust write `result[(j, i)]` goes out
of bounds and aborts, while this total function silently returns a junk
matrix. -/
def build_cnot_unitary (control target num_qubits : ℕ) : Mat :=
  fun r c =>
    if c < 2 ^ num_qubits ∧ r = cnot_out control target num_qubits c then 1 else 0

/-! ## `density_matrix.rs` -/

/-- `DensityMatrix` -/
structure DensityMatrix where
  matrix : Mat
  num_qubits : ℕ

namespace DensityMatrix

/-- `DensityMatrix::new(num_qubits)`: zeros with entry `(0,0) = 1`. -/
def new (num_qubits : ℕ) : DensityMatrix :=
  { matrix := fun i j => if i = 0 ∧ j = 0 then 1 else 0
    num_qubits := num_qubits }

/-- `dim()`: `1 << num_qubits`. -/
def dim (ρ : DensityMatrix) : ℕ := 2 ^ ρ.num_qubits

/-- `trace()` -/
def trace (ρ : DensityMatrix) : ℂ := traceN ρ.dim ρ.matrix

/-- `purity()`: `Re(trace(ρ²))`. -/
def purity (ρ : DensityMatrix) : ℝ :=
  (traceN ρ.dim (matMul ρ.dim ρ.matrix ρ.matrix)).re

/-- `apply_unitary(U)`: `ρ ← (U * ρ) * U†`. -/
def apply_unitary (ρ : DensityMatrix) (unitary : Mat) : DensityMatrix :=
  { ρ with matrix := matMul ρ.dim (matMul ρ.dim unitary ρ.matrix) (adjointM unitary) }

/-- `apply_kraus(kraus_ops)`: `ρ ← Σᵢ Kᵢ·ρ·Kᵢ†`, accumulated from zeros. -/
def apply_kraus (ρ : DensityMatrix) (kraus_ops : List Mat) : DensityMatrix :=
  let rho_new :=
    kraus_ops.foldl
      (fun acc k => matAdd acc (matMul ρ.dim (matMul ρ.dim k ρ.matrix) (adjointM k)))
      zeroM
  { ρ with matrix := rho_new }

/-- `probabilities()`: diagonal real parts clamped to `≥ 0`. -/
def probabilities (ρ : DensityMatrix) : List ℝ :=
  (List.range ρ.dim).map (fun i => max (ρ.matrix i i).re 0)

end DensityMatrix

/-! ## `noise_model.rs` -/

/-- `amplitude_damping_kraus(gamma)`:
`K0 = [[1, 0], [0, √(1-γ)]]`, `K1 = [[0, √γ], [0, 0]]`. -/
def amplitude_damping_kraus (gamma : ℝ) : List Mat :=
  [ mat2 1 0 0 (Real.sqrt (1 - gamma) : ℝ),
    mat2 0 (Real.sqrt gamma : ℝ) 0 0 ]

/-- `dephasing_kraus(lambda)`:
`K0 = √(1-λ)·I`, `K1 = [[√λ, 0], [0, -√λ]]`. -/
def dephasing_kraus (lambda : ℝ) : List Mat :=
  [ mat2 (Real.sqrt (1 - lambda) : ℝ) 0 0 (Real.sqrt (1 - lambda) : ℝ),
    mat2 (Real.sqrt lambda : ℝ) 0 0 (-(Real.sqrt lambda : ℝ) : ℝ) ]

/-- `depolarizing_kraus(p)`:
`K0 = √(1-3p/4)·I`, `K1 = √(p/4)·X`, `K2 = √(p/4)·Y`, `K3 = √(p/4)·Z`. -/
def depolarizing_kraus (p : ℝ) : List Mat :=
  let sqrt_1_3p_4 : ℂ := (Real.sqrt (1 - 3 * p / 4) : ℝ)
  let sqrt_p_4 : ℂ := (Real.sqrt (p / 4) : ℝ)
  [ mat2 (1 * sqrt_1_3p_4) 0 0 (1 * sqrt_1_3p_4),
    mat2 0 (1 * sqrt_p_4) (1 * sqrt_p_4) 0,
    mat2 0 (-Complex.I * sqrt_p_4) (Complex.I * sqrt_p_4) 0,
    mat2 (1 * sqrt_p_4) 0 0 (-1 * sqrt_p_4) ]

/-- `expand_kraus_to_full_system(single_qubit_kraus, target_wire, num_qubits)`:
the same tensor fold as `build_single_qubit_unitary`, mapped over the set. -/
def expand_kraus_to_full_system (single_qubit_kraus : List Mat)
    (target_wire num_qubits : ℕ) : List Mat :=
  single_qubit_kraus.map (fun k =>
    (List.range' 1 (num_qubits - 1)).foldl
      (fun result i => kron 2 2 result (if i = target_wire then k else identity))
      (if target_wire = 0 then k else identity))

/-- `apply_depolarizing(rho, wire, p)` (noise-model level). -/
def apply_depolarizing (rho : DensityMatrix) (wire : ℕ) (p : ℝ) : DensityMatrix :=
  if p ≤ 0 then rho
  else
    rho.apply_kraus
      (expand_kraus_to_full_system (depolarizing_kraus p) wire rho.num_qubits)

/-- `apply_amplitude_damping(rho, wire, gamma)`. -/
def apply_amplitude_damping (rho : DensityMatrix) (wire : ℕ) (gamma : ℝ) :
    DensityMatrix :=
  if gamma ≤ 0 then rho
  else
    rho.apply_kraus
      (expand_kraus_to_full_system (amplitude_damping_kraus gamma) wire rho.num_qubits)

/-- `apply_dephasing(rho, wire, lambda)`. -/
def apply_dephasing (rho : DensityMatrix) (wire : ℕ) (lambda : ℝ) : DensityMatrix :=
  if lambda ≤ 0 then rho
  else
    rho.apply_kraus
      (expand_kraus_to_full_system (dephasing_kraus lambda) wire rho.num_qubits)

/-- `apply_idle_noise(rho, wire, protected)`: suppression factor 0.2 when
protected else 1.0; amplitude damping at `0.05·f` then dephasing at `0.02·f`. -/
def apply_idle_noise (rho : DensityMatrix) (wire : ℕ) (prot : Bool) : DensityMatrix :=
  let suppression_factor : ℝ := if prot then 0.2 else 1.0
  let gamma := 0.05 * suppression_factor
  let lambda := 0.02 * suppression_factor
  apply_dephasing (apply_amplitude_damping rho wire gamma) wire lambda

/-- Alias for the noise-model `apply_depolarizing`, taken before the
simulator declares its method of the same name (Rust distinguishes the two
by module path). -/
def noise_apply_depolarizing : DensityMatrix → ℕ → ℝ → DensityMatrix :=
  apply_depolarizing

/-! ## `simulator.rs` -/

/-- `QuantumSimulator` -/
structure QuantumSimulator where
  state : DensityMatrix
  num_qubits : ℕ

namespace QuantumSimulator

/-- `QuantumSimulator::new(num_qubits)` -/
def new (num_qubits : ℕ) : QuantumSimulator :=
  { state := DensityMatrix.new num_qubits, num_qubits := num_qubits }

/-- `reset()` -/
def reset (sim : QuantumSimulator) : QuantumSimulator :=
  { sim with state := DensityMatrix.new sim.num_qubits }

/-- The `match gate_name { ... }` of `apply_gate`, which either early-returns
an `Err` or produces the full-system unitary to apply. -/
def gate_unitary (sim : QuantumSimulator) (gate_name : String)
    (wires : List ℕ) (params : List ℝ) : Except String Mat :=
  if gate_name = "PauliX" ∨ gate_name = "X" then
    if wires.length ≠ 1 then .error "PauliX requires exactly 1 wire"
    else .ok (build_single_qubit_unitary pauli_x (wires.getD 0 0) sim.num_qubits)
  else if gate_name = "PauliY" ∨ gate_name = "Y" then
    if wires.length ≠ 1 then .error "PauliY requires exactly 1 wire"
    else .ok (build_single_qubit_unitary pauli_y (wires.getD 0 0) sim.num_qubits)
  else if gate_name = "PauliZ" ∨ gate_name = "Z" then
    if wires.length ≠ 1 then .error "PauliZ requires exactly 1 wire"
    else .ok (build_single_qubit_unitary pauli_z (wires.getD 0 0) sim.num_qubits)
  else if gate_name = "Hadamard" ∨ gate_name = "H" then
    if wires.length ≠ 1 then .error "Hadamard requires exactly 1 wire"
    else .ok (build_single_qubit_unitary hadamard (wires.getD 0 0) sim.num_qubits)
  else if gate_name = "RX" then
    if wires.length ≠ 1 ∨ params = [] then .error "RX requires 1 wire and 1 parameter"
    else .ok (build_single_qubit_unitary (rx (params.getD 0 0)) (wires.getD 0 0)
                sim.num_qubits)
  else if gate_name = "RY" then
    if wires.length ≠ 1 ∨ params = [] then .error "RY requires 1 wire and 1 parameter"
    else .ok (build_single_qubit_unitary (ry (params.getD 0 0)) (wires.getD 0 0)
                sim.num_qubits)
  else if gate_name = "RZ" then
    if wires.length ≠ 1 ∨ params = [] then .error "RZ requires 1 wire and 1 parameter"
    else .ok (build_single_qubit_unitary (rz (params.getD 0 0)) (wires.getD 0 0)
                sim.num_qubits)
  else if gate_name = "CNOT" ∨ gate_name = "CX" then
    if wires.length ≠ 2 then .error "CNOT requires exactly 2 wires"
    else .ok (build_cnot_unitary (wires.getD 0 0) (wires.getD 1 0) sim.num_qubits)
  else .error ("Unknown gate: " ++ gate_name)

/-- `apply_gate(gate_name, wires, params)`: on `Err` the early return leaves
`self` untouched; on `Ok` the unitary is applied to the state.  The pair
returns the `Result` together with the (possibly mutated) receiver. -/
def apply_gate (sim : QuantumSimulator) (gate_name : String)
    (wires : List ℕ) (params : List ℝ) : Except String Unit × QuantumSimulator :=
  match sim.gate_unitary gate_name wires params with
  | .error e => (.error e, sim)
  | .ok unitary => (.ok (), { sim with state := sim.state.apply_unitary unitary })

/-- `apply_noise(wire, protected)`: silent early return when `wire ≥ num_qubits`. -/
def apply_noise (sim : QuantumSimulator) (wire : ℕ) (prot : Bool) : QuantumSimulator :=
  if sim.num_qubits ≤ wire then sim
  else { sim with state := apply_idle_noise sim.state wire prot }

/-- `apply_phase_damping(wire, lambda)`: silent early return when out of range. -/
def apply_phase_damping (sim : QuantumSimulator) (wire : ℕ) (lambda : ℝ) :
    QuantumSimulator :=
  if sim.num_qubits ≤ wire then sim
  else { sim with state := apply_dephasing sim.state wire lambda }

/-- `apply_depolarizing(wire, p)` (simulator level): silent early return when
out of range. -/
def apply_depolarizing (sim : QuantumSimulator) (wire : ℕ) (p : ℝ) :
    QuantumSimulator :=
  if sim.num_qubits ≤ wire then sim
  else { sim with state := noise_apply_depolarizing sim.state wire p }

/-- `get_metrics()`: `(trace.re, purity)`. -/
def get_metrics (sim : QuantumSimulator) : ℝ × ℝ :=
  (sim.state.trace.re, sim.state.purity)

end QuantumSimulator

/-! ## Auxiliary notions for the specification statements -/

/-- The gate names `apply_gate`'s `match` actually accepts (aliases included). -/
def dispatch_names : List String :=
  ["PauliX", "X", "PauliY", "Y", "PauliZ", "Z", "Hadamard", "H",
   "RX", "RY", "RZ", "CNOT", "CX"]

/-- The single-qubit names among them. -/
def single_qubit_names : List String :=
  ["PauliX", "X", "PauliY", "Y", "PauliZ", "Z", "Hadamard", "H", "RX", "RY", "RZ"]

/-- Wire count required by each recognized gate. -/
def req_wires (name : String) : ℕ :=
  if name = "CNOT" ∨ name = "CX" then 2 else 1

/-- Whether the dispatcher checks for a (first) parameter for this gate. -/
def needs_param (name : String) : Bool :=
  name = "RX" ∨ name = "RY" ∨ name = "RZ"

/-- The exact arity-mismatch message each recognized gate produces. -/
def arity_message (name : String) : String :=
  if name = "PauliX" ∨ name = "X" then "PauliX requires exactly 1 wire"
  else if name = "PauliY" ∨ name = "Y" then "PauliY requires exactly 1 wire"
  else if name = "PauliZ" ∨ name = "Z" then "PauliZ requires exactly 1 wire"
  else if name = "Hadamard" ∨ name = "H" then "Hadamard requires exactly 1 wire"
  else if name = "RX" then "RX requires 1 wire and 1 parameter"
  else if name = "RY" then "RY requires 1 wire and 1 parameter"
  else if name = "RZ" then "RZ requires 1 wire and 1 parameter"
  else "CNOT requires exactly 2 wires"

/-- An `apply_gate`-style error is UnknownGate-kind when it carries the
`Unknown gate:` message. -/
def is_unknown_gate_error (r : Except String Unit) : Prop :=
  ∃ g, r = .error ("Unknown gate: " ++ g)

/-- `U† · U = I` on the `d × d` block (and the product vanishes outside it).
This is the property that makes `apply_unitary` trace-preserving. -/
def unitaryOn (d : ℕ) (U : Mat) : Prop :=
  matMul d (adjointM U) U = idN d

/-- One recorded `apply_gate` request. -/
structure GateReq where
  name : String
  wires : List ℕ
  params : List ℝ

/-- Run a sequence of `apply_gate` requests, keeping the (possibly mutated)
simulator of each call and discarding the `Result`s, as a driver loop would. -/
def run_gates (sim : QuantumSimulator) (reqs : List GateReq) : QuantumSimulator :=
  reqs.foldl (fun s r => (s.apply_gate r.name r.wires r.params).2) sim

/-- A CNOT/CX request is well-formed for `n` qubits when its control and
target are distinct in-range wires (out-of-range or equal wires make the
Rust builder panic or produce a non-unitary matrix). -/
def valid_cnot_req (n : ℕ) (r : GateReq) : Prop :=
  (r.name = "CNOT" ∨ r.name = "CX") →
    ∀ c t, r.wires = [c, t] → c ≠ t ∧ c < n ∧ t < n

/-- For a CNOT/CX call, both wires in range.  Outside this range the Rust
builder never returns: `num_qubits - 1 - wire` overflows `usize` (debug
abort), or the masked shift makes the `result[(j, i)]` write go out of
bounds (release abort).  The total model does not represent that path, so
theorems about a normal return from `apply_gate` assume this. -/
def cnot_wires_in_range (n : ℕ) (name : String) (wires : List ℕ) : Prop :=
  (name = "CNOT" ∨ name = "CX") → ∀ c t, wires = [c, t] → c < n ∧ t < n

/-! ## Auxiliary definitions for concrete-state computations -/

/-- Rank-one matrix `v·v†`. -/
def outer (v : ℕ → ℂ) : Mat := fun i j => v i * (starRingEnd ℂ) (v j)

/-- `U·v` truncated at dimension `d`. -/
def uvec (d : ℕ) (U : Mat) (v : ℕ → ℂ) : ℕ → ℂ :=
  fun i => ∑ k ∈ Finset.range d, U i k * v k

/-- The running total `sum += k.adjoint() * k` of the completeness check. -/
def kraus_sum (ops : List Mat) : Mat :=
  ops.foldl (fun acc k => matAdd acc (matMul 2 (adjointM k) k)) zeroM

/-! ## Helper lemmas -/

lemma mat2_bounded (a b c d : ℂ) : matBounded 2 (mat2 a b c d) := by
  intro i j h
  unfold mat2
  split_ifs <;> first | rfl | (exfalso; omega)

lemma unitaryOn2_of (U : Mat) (hb : matBounded 2 U)
    (h00 : (starRingEnd ℂ) (U 0 0) * U 0 0 + (starRingEnd ℂ) (U 1 0) * U 1 0 = 1)
    (h01 : (starRingEnd ℂ) (U 0 0) * U 0 1 + (starRingEnd ℂ) (U 1 0) * U 1 1 = 0)
    (h10 : (starRingEnd ℂ) (U 0 1) * U 0 0 + (starRingEnd ℂ) (U 1 1) * U 1 0 = 0)
    (h11 : (starRingEnd ℂ) (U 0 1) * U 0 1 + (starRingEnd ℂ) (U 1 1) * U 1 1 = 1) :
    unitaryOn 2 U := by
  funext i j
  simp only [unitaryOn, matMul, adjointM, idN, Finset.sum_range_succ,
    Finset.sum_range_zero, zero_add]
  by_cases hi : i < 2
  · by_cases hj : j < 2
    · interval_cases i <;> interval_cases j <;> simp_all
    · have e0 : U 0 j = 0 := hb 0 j (Or.inr (by omega))
      have e1 : U 1 j = 0 := hb 1 j (Or.inr (by omega))
      rw [e0, e1, if_neg (by omega : ¬(i = j ∧ i < 2))]
      ring
  · have e0 : U 0 i = 0 := hb 0 i (Or.inr (by omega))
    have e1 : U 1 i = 0 := hb 1 i (Or.inr (by omega))
    rw [e0, e1, if_neg (by omega : ¬(i = j ∧ i < 2))]
    simp

lemma pauli_x_unitary : unitaryOn 2 pauli_x := by
  refine unitaryOn2_of _ (mat2_bounded _ _ _ _) ?_ ?_ ?_ ?_ <;>
    simp [pauli_x, mat2]

lemma pauli_y_unitary : unitaryOn 2 pauli_y := by
  refine unitaryOn2_of _ (mat2_bounded _ _ _ _) ?_ ?_ ?_ ?_ <;>
    simp [pauli_y, mat2, Complex.conj_I, Complex.I_mul_I]

lemma pauli_z_unitary : unitaryOn 2 pauli_z := by
  refine unitaryOn2_of _ (mat2_bounded _ _ _ _) ?_ ?_ ?_ ?_ <;>
    simp [pauli_z, mat2]

lemma identity_unitary : unitaryOn 2 identity := by
  refine unitaryOn2_of _ (mat2_bounded _ _ _ _) ?_ ?_ ?_ ?_ <;>
    simp [identity, mat2]

lemma hadamard_unitary : unitaryOn 2 hadamard := by
  have hs : (Real.sqrt 2)⁻¹ * (Real.sqrt 2)⁻¹ = 1 / 2 := by
    rw [← mul_inv]
    rw [Real.mul_self_sqrt (by norm_num : (0:ℝ) ≤ 2)]
    norm_num
  refine unitaryOn2_of _ (mat2_bounded _ _ _ _) ?_ ?_ ?_ ?_ <;>
    simp [hadamard, mat2, Complex.conj_ofReal] <;>
    · norm_cast
      try simp [hs]
      try linarith [hs]

lemma rx_unitary (theta : ℝ) : unitaryOn 2 (rx theta) := by
  refine unitaryOn2_of _ (mat2_bounded _ _ _ _) ?_ ?_ ?_ ?_ <;>
    simp [rx, mat2, ← Complex.cos_conj, ← Complex.sin_conj, Complex.conj_ofReal,
      Complex.conj_I, map_ofNat, map_div₀] <;>
    · try ring_nf
      try simp [Complex.I_sq]
      try ring_nf
      try linear_combination Complex.cos_sq_add_sin_sq ((theta : ℂ) * (1 / 2))

lemma ry_unitary (theta : ℝ) : unitaryOn 2 (ry theta) := by
  refine unitaryOn2_of _ (mat2_bounded _ _ _ _) ?_ ?_ ?_ ?_ <;>
    simp [ry, mat2, ← Complex.cos_conj, ← Complex.sin_conj, Complex.conj_ofReal,
      map_ofNat, map_div₀] <;>
    · try ring_nf
      try linear_combination Complex.cos_sq_add_sin_sq ((theta : ℂ) * (1 / 2))

lemma rz_unitary (theta : ℝ) : unitaryOn 2 (rz theta) := by
  refine unitaryOn2_of _ (mat2_bounded _ _ _ _) ?_ ?_ ?_ ?_ <;>
    simp [rz, mat2, ← Complex.exp_conj, ← Complex.exp_add, map_neg, map_mul,
      map_div₀, map_ofNat, Complex.conj_I, Complex.conj_ofReal]

lemma sum_range_two_mul (d : ℕ) (f : ℕ → ℂ) :
    ∑ l ∈ Finset.range (2 * d), f l =
      ∑ a ∈ Finset.range d, (f (2 * a) + f (2 * a + 1)) := by
  induction d with
  | zero => simp
  | succ n ih =>
    rw [show 2 * (n + 1) = 2 * n + 1 + 1 by ring, Finset.sum_range_succ,
      Finset.sum_range_succ, ih, Finset.sum_range_succ]
    ring

lemma idN_kron_mul (d i j : ℕ) :
    idN d (i / 2) (j / 2) * idN 2 (i % 2) (j % 2) = idN (2 * d) i j := by
  simp only [idN]
  split_ifs
  all_goals first | ring1 | (exfalso; omega)

lemma kron_unitary {d : ℕ} {A B : Mat} (hA : unitaryOn d A) (hB : unitaryOn 2 B) :
    unitaryOn (2 * d) (kron 2 2 A B) := by
  have hA' : ∀ i j, (∑ l ∈ Finset.range d, (starRingEnd ℂ) (A l i) * A l j) = idN d i j := by
    intro i j
    have h := congrFun (congrFun hA i) j
    simpa [matMul, adjointM] using h
  have hB' : ∀ i j, ((starRingEnd ℂ) (B 0 i) * B 0 j +
      (starRingEnd ℂ) (B 1 i) * B 1 j) = idN 2 i j := by
    intro i j
    have h := congrFun (congrFun hB i) j
    simpa [matMul, adjointM, Finset.sum_range_succ] using h
  funext i j
  simp only [unitaryOn, matMul, adjointM]
  rw [sum_range_two_mul]
  have step : ∀ a ∈ Finset.range d,
      (starRingEnd ℂ) (kron 2 2 A B (2 * a) i) * kron 2 2 A B (2 * a) j +
        (starRingEnd ℂ) (kron 2 2 A B (2 * a + 1) i) * kron 2 2 A B (2 * a + 1) j =
      ((starRingEnd ℂ) (A a (i / 2)) * A a (j / 2)) *
        (((starRingEnd ℂ) (B 0 (i % 2)) * B 0 (j % 2)) +
          ((starRingEnd ℂ) (B 1 (i % 2)) * B 1 (j % 2))) := by
    intro a _
    have e1 : 2 * a / 2 = a := by omega
    have e2 : (2 * a + 1) / 2 = a := by omega
    have e3 : 2 * a % 2 = 0 := by omega
    have e4 : (2 * a + 1) % 2 = 1 := by omega
    simp only [kron, e1, e2, e3, e4, map_mul]
    ring
  rw [Finset.sum_congr rfl step, ← Finset.sum_mul, hA', hB']
  exact idN_kron_mul d i j

lemma identity_eq_idN : identity = idN 2 := by
  funext i j
  simp only [identity, mat2, idN]
  split_ifs <;> first | rfl | (exfalso; omega)

lemma kron_id_id (d : ℕ) : kron 2 2 (idN d) (idN 2) = idN (2 * d) := by
  funext i j
  exact idN_kron_mul d i j

lemma traceN_matMul_comm (d : ℕ) (A B : Mat) :
    traceN d (matMul d A B) = traceN d (matMul d B A) := by
  simp only [traceN, matMul]
  rw [Finset.sum_comm]
  exact Finset.sum_congr rfl fun l _ => Finset.sum_congr rfl fun i _ => mul_comm _ _

lemma matMul_assoc (d : ℕ) (A B C : Mat) :
    matMul d (matMul d A B) C = matMul d A (matMul d B C) := by
  funext i j
  simp only [matMul, Finset.sum_mul, Finset.mul_sum]
  rw [Finset.sum_comm]
  exact Finset.sum_congr rfl fun l _ => Finset.sum_congr rfl fun m _ => by ring

lemma traceN_idN_matMul (d : ℕ) (A : Mat) :
    traceN d (matMul d (idN d) A) = traceN d A := by
  simp only [traceN, matMul]
  refine Finset.sum_congr rfl fun i hi => ?_
  have hid : i < d := Finset.mem_range.mp hi
  have h : ∀ l, idN d i l * A l i = if l = i then A l i else 0 := by
    intro l
    by_cases hl : l = i
    · subst hl
      simp [idN, hid]
    · simp [idN, hl, Ne.symm hl]
  rw [Finset.sum_congr rfl fun l _ => h l, Finset.sum_ite_eq' (Finset.range d) i]
  simp [hid]

lemma unitary_conj_trace {d : ℕ} {U : Mat} (hU : unitaryOn d U) (A : Mat) :
    traceN d (matMul d (matMul d U A) (adjointM U)) = traceN d A := by
  rw [traceN_matMul_comm, ← matMul_assoc]
  have h : matMul d (adjointM U) U = idN d := hU
  rw [show matMul d (matMul d (adjointM U) U) A = matMul d (idN d) A by rw [h]]
  exact traceN_idN_matMul d A

lemma bit_and_one (x k : ℕ) : (x >>> k) &&& 1 = if x.testBit k then 1 else 0 := by
  rw [Nat.and_one_is_mod, Nat.shiftRight_eq_div_pow, Nat.testBit_to_div_mod]
  rcases Nat.mod_two_eq_zero_or_one (x / 2 ^ k) with h | h <;> simp [h]

lemma cnot_out_eq (c t n i : ℕ) :
    cnot_out c t n i =
      if (i >>> (n - 1 - c)) &&& 1 = 1 then i ^^^ 1 <<< (n - 1 - t) else i := rfl

lemma cnot_out_lt {c t n : ℕ} (ht : t < n) {i : ℕ} (hi : i < 2 ^ n) :
    cnot_out c t n i < 2 ^ n := by
  rw [cnot_out_eq]
  split_ifs with h
  · rw [Nat.one_shiftLeft]
    exact Nat.xor_lt_two_pow hi (Nat.pow_lt_pow_right (by norm_num) (by omega))
  · exact hi

lemma cnot_out_invol {c t n : ℕ} (hc : c < n) (ht : t < n) (hne : c ≠ t) (i : ℕ) :
    cnot_out c t n (cnot_out c t n i) = i := by
  rw [cnot_out_eq, cnot_out_eq, bit_and_one, bit_and_one]
  have hdiff : n - 1 - t ≠ n - 1 - c := by omega
  by_cases hb : i.testBit (n - 1 - c)
  · have hxb : (i ^^^ 1 <<< (n - 1 - t)).testBit (n - 1 - c) = true := by
      rw [Nat.one_shiftLeft, Nat.testBit_xor, Nat.testBit_two_pow_of_ne hdiff, hb]
      rfl
    simp only [hb, if_true, hxb, Nat.xor_cancel_right]
  · simp [hb]

lemma cnot_unitary {c t n : ℕ} (hc : c < n) (ht : t < n) (hne : c ≠ t) :
    unitaryOn (2 ^ n) (build_cnot_unitary c t n) := by
  have hinj : ∀ i j, cnot_out c t n i = cnot_out c t n j → i = j := by
    intro i j h
    have h1 := cnot_out_invol hc ht hne i
    have h2 := cnot_out_invol hc ht hne j
    rw [← h1, ← h2, h]
  funext i j
  simp only [unitaryOn, matMul, adjointM, build_cnot_unitary, idN]
  by_cases hi : i < 2 ^ n
  · by_cases hj : j < 2 ^ n
    · have hterm : ∀ l,
          (starRingEnd ℂ) (if i < 2 ^ n ∧ l = cnot_out c t n i then (1:ℂ) else 0) *
            (if j < 2 ^ n ∧ l = cnot_out c t n j then (1:ℂ) else 0) =
          if l = cnot_out c t n i ∧ cnot_out c t n i = cnot_out c t n j
            then 1 else 0 := by
        intro l
        simp only [hi, hj, true_and]
        by_cases e1 : l = cnot_out c t n i
        · subst e1
          simp
        · simp [e1]
      rw [Finset.sum_congr rfl fun l _ => hterm l]
      by_cases ho : cnot_out c t n i = cnot_out c t n j
      · have hij : i = j := hinj i j ho
        simp only [ho, and_true]
        rw [Finset.sum_ite_eq' (Finset.range (2 ^ n)) (cnot_out c t n j)
            (fun _ => (1:ℂ))]
        simp [Finset.mem_range.mpr (cnot_out_lt ht hj), hij, hi, hj]
      · have hij : i ≠ j := fun h => ho (h ▸ rfl)
        simp [ho, hij]
    · have hterm : ∀ l,
          (starRingEnd ℂ) (if i < 2 ^ n ∧ l = cnot_out c t n i then (1:ℂ) else 0) *
            (if j < 2 ^ n ∧ l = cnot_out c t n j then (1:ℂ) else 0) = 0 := by
        intro l
        simp [hj]
      rw [Finset.sum_congr rfl fun l _ => hterm l]
      have hij : ¬(i = j ∧ i < 2 ^ n) := by omega
      simp [hij]
  · have hterm : ∀ l,
        (starRingEnd ℂ) (if i < 2 ^ n ∧ l = cnot_out c t n i then (1:ℂ) else 0) *
          (if j < 2 ^ n ∧ l = cnot_out c t n j then (1:ℂ) else 0) = 0 := by
      intro l
      simp [hi]
    rw [Finset.sum_congr rfl fun l _ => hterm l]
    have hij : ¬(i = j ∧ i < 2 ^ n) := by omega
    simp [hij]

lemma build_single_concat (g : Mat) (w n : ℕ) (hn : 1 ≤ n) :
    build_single_qubit_unitary g w (n + 1) =
      kron 2 2 (build_single_qubit_unitary g w n) (if n = w then g else identity) := by
  unfold build_single_qubit_unitary
  rw [show n + 1 - 1 = (n - 1) + 1 by omega, List.range'_1_concat,
    List.foldl_append, show 1 + (n - 1) = n by omega]
  rfl

lemma build_single_base (g : Mat) (w : ℕ) :
    build_single_qubit_unitary g w 1 = if w = 0 then g else identity := by
  unfold build_single_qubit_unitary
  rfl

lemma build_single_unitary {g : Mat} (hg : unitaryOn 2 g) (w : ℕ) {n : ℕ}
    (hn : 1 ≤ n) : unitaryOn (2 ^ n) (build_single_qubit_unitary g w n) := by
  induction n, hn using Nat.le_induction with
  | base =>
    rw [build_single_base]
    split_ifs
    · exact hg
    · exact identity_eq_idN ▸ identity_unitary
  | succ n hn ih =>
    rw [build_single_concat g w n hn, show (2:ℕ) ^ (n + 1) = 2 * 2 ^ n by ring]
    refine kron_unitary ih ?_
    split_ifs
    · exact hg
    · exact identity_eq_idN ▸ identity_unitary

lemma build_single_oob (g : Mat) {w n : ℕ} (hn : 1 ≤ n) (hw : n ≤ w) :
    build_single_qubit_unitary g w n = idN (2 ^ n) := by
  induction n, hn using Nat.le_induction with
  | base =>
    rw [build_single_base, if_neg (by omega), identity_eq_idN]
    norm_num
  | succ n hn ih =>
    rw [build_single_concat g w n hn, ih (by omega), if_neg (by omega),
      identity_eq_idN, kron_id_id, show 2 * 2 ^ n = 2 ^ (n + 1) by ring]

lemma new_trace (n : ℕ) : (DensityMatrix.new n).trace = 1 := by
  simp only [DensityMatrix.new, DensityMatrix.trace, DensityMatrix.dim, traceN]
  rw [Finset.sum_congr rfl
    (fun i _ => show (if i = 0 ∧ i = 0 then (1:ℂ) else 0) = if i = 0 then 1 else 0
      by simp)]
  rw [Finset.sum_ite_eq' (Finset.range (2 ^ n)) 0 (fun _ => (1:ℂ))]
  simp [Nat.pos_pow_of_pos]

lemma apply_unitary_trace {ρ : DensityMatrix} {U : Mat} (hU : unitaryOn ρ.dim U) :
    (ρ.apply_unitary U).trace = ρ.trace := by
  simp only [DensityMatrix.apply_unitary, DensityMatrix.trace, DensityMatrix.dim]
  exact unitary_conj_trace hU ρ.matrix

set_option maxHeartbeats 1000000 in
lemma gate_unitary_ok_unitary {sim : QuantumSimulator} {name : String}
    {wires : List ℕ} {params : List ℝ} {u : Mat}
    (h : sim.gate_unitary name wires params = .ok u)
    (hn : 1 ≤ sim.num_qubits)
    (hv : valid_cnot_req sim.num_qubits ⟨name, wires, params⟩) :
    unitaryOn (2 ^ sim.num_qubits) u := by
  unfold QuantumSimulator.gate_unitary at h
  split_ifs at h <;> injection h with h <;> subst h
  · exact build_single_unitary pauli_x_unitary _ hn
  · exact build_single_unitary pauli_y_unitary _ hn
  · exact build_single_unitary pauli_z_unitary _ hn
  · exact build_single_unitary hadamard_unitary _ hn
  · exact build_single_unitary (rx_unitary _) _ hn
  · exact build_single_unitary (ry_unitary _) _ hn
  · exact build_single_unitary (rz_unitary _) _ hn
  · rename_i hname hlen
    have hlen2 : wires.length = 2 := not_ne_iff.mp hlen
    rcases wires with _ | ⟨c, _ | ⟨t, _ | ⟨x, rest⟩⟩⟩
    · simp at hlen2
    · simp at hlen2
    · obtain ⟨hne, hcn, htn⟩ := hv hname c t rfl
      exact cnot_unitary hcn htn hne
    · simp at hlen2

lemma apply_gate_num_qubits (sim : QuantumSimulator) (name : String)
    (wires : List ℕ) (params : List ℝ) :
    ((sim.apply_gate name wires params).2).num_qubits = sim.num_qubits ∧
      ((sim.apply_gate name wires params).2).state.num_qubits =
        sim.state.num_qubits := by
  unfold QuantumSimulator.apply_gate
  cases sim.gate_unitary name wires params with
  | error e => exact ⟨rfl, rfl⟩
  | ok u => exact ⟨rfl, rfl⟩

lemma apply_gate_trace {sim : QuantumSimulator} {name : String} {wires : List ℕ}
    {params : List ℝ} (hn : 1 ≤ sim.num_qubits)
    (hq : sim.state.num_qubits = sim.num_qubits)
    (hv : valid_cnot_req sim.num_qubits ⟨name, wires, params⟩) :
    ((sim.apply_gate name wires params).2).state.trace = sim.state.trace := by
  unfold QuantumSimulator.apply_gate
  cases hg : sim.gate_unitary name wires params with
  | error e => rfl
  | ok u =>
    refine apply_unitary_trace ?_
    rw [DensityMatrix.dim, hq]
    exact gate_unitary_ok_unitary hg hn hv

lemma run_gates_trace_aux (reqs : List GateReq) :
    ∀ sim : QuantumSimulator, 1 ≤ sim.num_qubits →
      sim.state.num_qubits = sim.num_qubits →
      (∀ r ∈ reqs, valid_cnot_req sim.num_qubits r) →
      (run_gates sim reqs).state.trace = sim.state.trace := by
  induction reqs with
  | nil => intro sim _ _ _; rfl
  | cons r rest ih =>
    intro sim hn hq hv
    have hfields := apply_gate_num_qubits sim r.name r.wires r.params
    have hstep : run_gates sim (r :: rest) =
        run_gates ((sim.apply_gate r.name r.wires r.params).2) rest := rfl
    rw [hstep, ih _ (hfields.1 ▸ hn) (by rw [hfields.1, hfields.2, hq])
      (fun q hq2 => hfields.1 ▸ hv q (List.mem_cons_of_mem r hq2))]
    exact apply_gate_trace hn hq (hv r (List.mem_cons_self r rest))



lemma conj_outer (d : ℕ) (U : Mat) (v : ℕ → ℂ) :
    matMul d (matMul d U (outer v)) (adjointM U) = outer (uvec d U v) := by
  funext i j
  simp only [matMul, adjointM, outer, uvec]
  have step : ∀ l ∈ Finset.range d,
      (∑ k ∈ Finset.range d, U i k * (v k * (starRingEnd ℂ) (v l))) *
        (starRingEnd ℂ) (U j l) =
      (∑ k ∈ Finset.range d, U i k * v k) *
        ((starRingEnd ℂ) (v l) * (starRingEnd ℂ) (U j l)) := by
    intro l _
    rw [Finset.sum_mul, Finset.sum_mul]
    exact Finset.sum_congr rfl fun k _ => by ring
  rw [Finset.sum_congr rfl step, ← Finset.mul_sum]
  congr 1
  rw [map_sum]
  exact Finset.sum_congr rfl fun l _ => by rw [map_mul]; ring

lemma new_matrix_outer (n : ℕ) :
    (DensityMatrix.new n).matrix = outer (fun i => if i = 0 then 1 else 0) := by
  funext i j
  simp only [DensityMatrix.new, outer]
  split_ifs <;> simp_all

lemma traceN_outer (d : ℕ) (v : ℕ → ℂ) :
    traceN d (outer v) = ∑ i ∈ Finset.range d, v i * (starRingEnd ℂ) (v i) := rfl

lemma uvec_X :
    uvec 4 (kron 2 2 pauli_x identity) (fun i => if i = 0 then 1 else 0) =
      fun i => if i = 2 then 1 else 0 := by
  funext i
  simp only [uvec, Finset.sum_range_succ, Finset.sum_range_zero, zero_add]
  norm_num
  rcases i with _ | _ | _ | _ | i
  · norm_num [kron, pauli_x, identity, mat2]
  · norm_num [kron, pauli_x, identity, mat2]
  · norm_num [kron, pauli_x, identity, mat2]
  · norm_num [kron, pauli_x, identity, mat2]
  · have h2 : (i + 4) / 2 = i / 2 + 2 := by omega
    have h3 : i + 4 ≠ 2 := by omega
    simp [kron, pauli_x, identity, mat2, h2, h3]

lemma uvec_cnot01 :
    uvec 4 (build_cnot_unitary 0 1 2) (fun i => if i = 2 then 1 else 0) =
      fun i => if i = 3 then 1 else 0 := by
  funext i
  have hout : cnot_out 0 1 2 2 = 3 := by decide
  simp only [uvec, Finset.sum_range_succ, Finset.sum_range_zero, zero_add,
    build_cnot_unitary, hout]
  norm_num

lemma sqrtHalf_ne : ((1 / Real.sqrt 2 : ℝ) : ℂ) ≠ 0 := by
  have : Real.sqrt 2 ≠ 0 := by positivity
  simp [this]

lemma uvec_H :
    uvec 4 (kron 2 2 hadamard identity) (fun i => if i = 0 then 1 else 0) =
      fun i => if i = 0 ∨ i = 2 then ((1 / Real.sqrt 2 : ℝ) : ℂ) else 0 := by
  funext i
  simp only [uvec, Finset.sum_range_succ, Finset.sum_range_zero, zero_add]
  norm_num
  rcases i with _ | _ | _ | _ | i
  · norm_num [kron, hadamard, identity, mat2]
  · norm_num [kron, hadamard, identity, mat2]
  · norm_num [kron, hadamard, identity, mat2]
  · norm_num [kron, hadamard, identity, mat2]
  · have h2 : (i + 4) / 2 = i / 2 + 2 := by omega
    have h3 : ¬(i + 4 = 0 ∨ i + 4 = 2) := by omega
    simp [kron, hadamard, identity, mat2, h2, h3]

lemma uvec_cnot00 (c : ℂ) :
    uvec 4 (build_cnot_unitary 0 0 2) (fun i => if i = 0 ∨ i = 2 then c else 0) =
      fun i => if i = 0 then 2 * c else 0 := by
  funext i
  have h0 : cnot_out 0 0 2 0 = 0 := by decide
  have h2 : cnot_out 0 0 2 2 = 0 := by decide
  simp only [uvec, Finset.sum_range_succ, Finset.sum_range_zero, zero_add,
    build_cnot_unitary, h0, h2]
  norm_num
  by_cases hi : i = 0
  · subst hi; norm_num; ring
  · simp [hi]

lemma state_after_X :
    (((QuantumSimulator.new 2).apply_gate "X" [0] []).2).state.matrix =
      outer (fun i => if i = 2 then 1 else 0) := by
  have h : (((QuantumSimulator.new 2).apply_gate "X" [0] []).2).state.matrix =
      matMul 4 (matMul 4 (kron 2 2 pauli_x identity)
        (DensityMatrix.new 2).matrix) (adjointM (kron 2 2 pauli_x identity)) := rfl
  rw [h, new_matrix_outer, conj_outer, uvec_X]

lemma state_after_X_cnot :
    ((((QuantumSimulator.new 2).apply_gate "X" [0] []).2).apply_gate
        "CNOT" [0, 1] []).2.state.matrix =
      outer (fun i => if i = 3 then 1 else 0) := by
  have h : ((((QuantumSimulator.new 2).apply_gate "X" [0] []).2).apply_gate
        "CNOT" [0, 1] []).2.state.matrix =
      matMul 4 (matMul 4 (build_cnot_unitary 0 1 2)
        ((((QuantumSimulator.new 2).apply_gate "X" [0] []).2).state.matrix))
        (adjointM (build_cnot_unitary 0 1 2)) := rfl
  rw [h, state_after_X, conj_outer, uvec_cnot01]

lemma state_after_H :
    (((QuantumSimulator.new 2).apply_gate "Hadamard" [0] []).2).state.matrix =
      outer (fun i => if i = 0 ∨ i = 2 then ((1 / Real.sqrt 2 : ℝ) : ℂ) else 0) := by
  have h : (((QuantumSimulator.new 2).apply_gate "Hadamard" [0] []).2).state.matrix =
      matMul 4 (matMul 4 (kron 2 2 hadamard identity)
        (DensityMatrix.new 2).matrix) (adjointM (kron 2 2 hadamard identity)) := rfl
  rw [h, new_matrix_outer, conj_outer, uvec_H]

lemma state_after_H_cnot00 :
    ((((QuantumSimulator.new 2).apply_gate "Hadamard" [0] []).2).apply_gate
        "CNOT" [0, 0] []).2.state.matrix =
      outer (fun i => if i = 0 then 2 * ((1 / Real.sqrt 2 : ℝ) : ℂ) else 0) := by
  have h : ((((QuantumSimulator.new 2).apply_gate "Hadamard" [0] []).2).apply_gate
        "CNOT" [0, 0] []).2.state.matrix =
      matMul 4 (matMul 4 (build_cnot_unitary 0 0 2)
        ((((QuantumSimulator.new 2).apply_gate "Hadamard" [0] []).2).state.matrix))
        (adjointM (build_cnot_unitary 0 0 2)) := rfl
  rw [h, state_after_H, conj_outer, uvec_cnot00]


lemma eq_idN2_of (S : Mat) (hb : matBounded 2 S)
    (h00 : S 0 0 = 1) (h01 : S 0 1 = 0) (h10 : S 1 0 = 0) (h11 : S 1 1 = 1) :
    S = idN 2 := by
  funext i j
  by_cases hi : i < 2
  · by_cases hj : j < 2
    · interval_cases i <;> interval_cases j <;> simp_all [idN]
    · rw [hb i j (Or.inr (by omega))]
      simp only [idN]
      rw [if_neg (by omega)]
  · rw [hb i j (Or.inl (by omega))]
    simp only [idN]
    rw [if_neg (by omega)]

lemma matMul_adj_bounded {K : Mat} (h : matBounded 2 K) :
    matBounded 2 (matMul 2 (adjointM K) K) := by
  intro i j hij
  simp only [matMul, adjointM]
  refine Finset.sum_eq_zero fun l _ => ?_
  rcases hij with h' | h'
  · rw [h l i (Or.inr h'), map_zero, zero_mul]
  · rw [h l j (Or.inr h'), mul_zero]

lemma kraus_sum_bounded (ops : List Mat) (h : ∀ K ∈ ops, matBounded 2 K) :
    matBounded 2 (kraus_sum ops) := by
  have haux : ∀ (l : List Mat) (acc : Mat), (∀ K ∈ l, matBounded 2 K) →
      matBounded 2 acc →
      matBounded 2 (l.foldl (fun a k => matAdd a (matMul 2 (adjointM k) k)) acc) := by
    intro l
    induction l with
    | nil => intro acc _ hacc; exact hacc
    | cons k rest ih =>
      intro acc hl hacc
      refine ih _ (fun K hK => hl K (List.mem_cons_of_mem k hK)) ?_
      intro i j hij
      simp only [matAdd]
      rw [hacc i j hij, matMul_adj_bounded (hl k (List.mem_cons_self k rest)) i j hij,
        add_zero]
  exact haux ops zeroM h (fun i j _ => rfl)

lemma kraus_sum_two (A B : Mat) (i j : ℕ) :
    kraus_sum [A, B] i j =
      matMul 2 (adjointM A) A i j + matMul 2 (adjointM B) B i j := by
  simp [kraus_sum, matAdd, zeroM]

lemma kraus_sum_four (A B C D : Mat) (i j : ℕ) :
    kraus_sum [A, B, C, D] i j =
      matMul 2 (adjointM A) A i j + matMul 2 (adjointM B) B i j +
        matMul 2 (adjointM C) C i j + matMul 2 (adjointM D) D i j := by
  simp [kraus_sum, matAdd, zeroM]

lemma amplitude_damping_complete {gamma : ℝ} (h0 : 0 ≤ gamma) (h1 : gamma ≤ 1) :
    kraus_sum (amplitude_damping_kraus gamma) = idN 2 := by
  have hs1 : Real.sqrt (1 - gamma) * Real.sqrt (1 - gamma) = 1 - gamma :=
    Real.mul_self_sqrt (by linarith)
  have hs2 : Real.sqrt gamma * Real.sqrt gamma = gamma := Real.mul_self_sqrt h0
  refine eq_idN2_of _ (kraus_sum_bounded _ ?_) ?_ ?_ ?_ ?_
  · intro K hK
    simp only [amplitude_damping_kraus, List.mem_cons, List.mem_singleton] at hK
    rcases hK with rfl | rfl | h
    · exact mat2_bounded _ _ _ _
    · exact mat2_bounded _ _ _ _
    · simp at h
  all_goals
    rw [show amplitude_damping_kraus gamma =
      [mat2 1 0 0 (Real.sqrt (1 - gamma) : ℝ), mat2 0 (Real.sqrt gamma : ℝ) 0 0]
      from rfl, kraus_sum_two]
  all_goals
    simp [matMul, adjointM, mat2, Finset.sum_range_succ, Complex.conj_ofReal]
  norm_cast
  linarith

lemma dephasing_complete {lam : ℝ} (h0 : 0 ≤ lam) (h1 : lam ≤ 1) :
    kraus_sum (dephasing_kraus lam) = idN 2 := by
  have hs1 : Real.sqrt (1 - lam) * Real.sqrt (1 - lam) = 1 - lam :=
    Real.mul_self_sqrt (by linarith)
  have hs2 : Real.sqrt lam * Real.sqrt lam = lam := Real.mul_self_sqrt h0
  refine eq_idN2_of _ (kraus_sum_bounded _ ?_) ?_ ?_ ?_ ?_
  · intro K hK
    simp only [dephasing_kraus, List.mem_cons, List.mem_singleton] at hK
    rcases hK with rfl | rfl | h
    · exact mat2_bounded _ _ _ _
    · exact mat2_bounded _ _ _ _
    · simp at h
  all_goals
    rw [show dephasing_kraus lam =
      [mat2 (Real.sqrt (1 - lam) : ℝ) 0 0 (Real.sqrt (1 - lam) : ℝ),
       mat2 (Real.sqrt lam : ℝ) 0 0 (-(Real.sqrt lam : ℝ) : ℝ)] from rfl,
      kraus_sum_two]
  all_goals
    simp [matMul, adjointM, mat2, Finset.sum_range_succ, Complex.conj_ofReal]
  all_goals norm_cast
  all_goals linarith

lemma depolarizing_complete {p : ℝ} (h0 : 0 ≤ p) (h1 : p ≤ 1) :
    kraus_sum (depolarizing_kraus p) = idN 2 := by
  have hs1 : Real.sqrt (1 - 3 * p / 4) * Real.sqrt (1 - 3 * p / 4) = 1 - 3 * p / 4 :=
    Real.mul_self_sqrt (by linarith)
  have hs2 : Real.sqrt (p / 4) * Real.sqrt (p / 4) = p / 4 :=
    Real.mul_self_sqrt (by linarith)
  set a := Real.sqrt (1 - 3 * p / 4) with ha
  set b := Real.sqrt (p / 4) with hb
  have hlist : depolarizing_kraus p =
      [mat2 (1 * (a : ℂ)) 0 0 (1 * (a : ℂ)),
       mat2 0 (1 * (b : ℂ)) (1 * (b : ℂ)) 0,
       mat2 0 (-Complex.I * (b : ℂ)) (Complex.I * (b : ℂ)) 0,
       mat2 (1 * (b : ℂ)) 0 0 (-1 * (b : ℂ))] := rfl
  refine eq_idN2_of _ (kraus_sum_bounded _ ?_) ?_ ?_ ?_ ?_
  · intro K hK
    rw [hlist] at hK
    simp only [List.mem_cons, List.mem_singleton] at hK
    rcases hK with rfl | rfl | rfl | rfl | h
    · exact mat2_bounded _ _ _ _
    · exact mat2_bounded _ _ _ _
    · exact mat2_bounded _ _ _ _
    · exact mat2_bounded _ _ _ _
    · simp at h
  all_goals rw [hlist, kraus_sum_four]
  all_goals
    simp [matMul, adjointM, mat2, Finset.sum_range_succ, Complex.conj_ofReal,
      Complex.conj_I]
  all_goals ring_nf
  all_goals simp [Complex.I_sq]
  all_goals try ring_nf
  all_goals norm_cast
  all_goals nlinarith [hs1, hs2]

lemma adjointM_idN (d : ℕ) : adjointM (idN d) = idN d := by
  funext i j
  simp only [adjointM, idN]
  rw [apply_ite (starRingEnd ℂ), map_one, map_zero]
  split_ifs <;> first | rfl | (exfalso; omega)

lemma idN_matMul_left (d : ℕ) (A : Mat) :
    matMul d (idN d) A = fun i j => if i < d then A i j else 0 := by
  funext i j
  simp only [matMul]
  by_cases hi : i < d
  · have h : ∀ l, idN d i l * A l j = if l = i then A l j else 0 := by
      intro l
      by_cases hl : l = i
      · subst hl; simp [idN, hi]
      · simp [idN, hl, Ne.symm hl]
    rw [Finset.sum_congr rfl fun l _ => h l,
      Finset.sum_ite_eq' (Finset.range d) i]
    simp [hi]
  · rw [if_neg hi]
    refine Finset.sum_eq_zero fun l _ => ?_
    simp [idN, fun h : i = l => hi]
    intro h
    omega

lemma idN_matMul_right (d : ℕ) (A : Mat) :
    matMul d A (idN d) = fun i j => if j < d then A i j else 0 := by
  funext i j
  simp only [matMul]
  by_cases hj : j < d
  · have h : ∀ l, A i l * idN d l j = if l = j then A i l else 0 := by
      intro l
      by_cases hl : l = j
      · subst hl; simp [idN, hj]
      · simp [idN, hl]
    rw [Finset.sum_congr rfl fun l _ => h l,
      Finset.sum_ite_eq' (Finset.range d) j]
    simp [hj]
  · rw [if_neg hj]
    refine Finset.sum_eq_zero fun l _ => ?_
    simp [idN]
    intro h
    omega

lemma apply_unitary_idN {ρ : DensityMatrix} (hb : matBounded ρ.dim ρ.matrix) :
    ρ.apply_unitary (idN ρ.dim) = ρ := by
  obtain ⟨m, n⟩ := ρ
  simp only [DensityMatrix.apply_unitary, DensityMatrix.dim] at *
  congr 1
  rw [adjointM_idN, idN_matMul_left, idN_matMul_right]
  funext i j
  by_cases hi : i < 2 ^ n <;> by_cases hj : j < 2 ^ n <;>
    simp [hi, hj]
  · exact (hb i j (Or.inr (by omega))).symm
  · exact (hb i j (Or.inl (by omega))).symm
  · exact (hb i j (Or.inl (by omega))).symm

lemma apply_gate_error_state (sim : QuantumSimulator) (name : String)
    (wires : List ℕ) (params : List ℝ) (e : String)
    (h : (sim.apply_gate name wires params).1 = .error e) :
    (sim.apply_gate name wires params).2 = sim := by
  cases hg : sim.gate_unitary name wires params with
  | error e2 => simp [QuantumSimulator.apply_gate, hg]
  | ok u => simp [QuantumSimulator.apply_gate, hg] at h

set_option maxHeartbeats 2000000 in
lemma apply_gate_ok_iff (sim : QuantumSimulator) (name : String)
    (wires : List ℕ) (params : List ℝ) (hmem : name ∈ dispatch_names)
    (_hn : 1 ≤ sim.num_qubits)
    (_hrange : cnot_wires_in_range sim.num_qubits name wires) :
    (((sim.apply_gate name wires params).1 = .ok ()) ↔
      (wires.length = req_wires name ∧ (needs_param name = true → params ≠ []))) ∧
    ((sim.apply_gate name wires params).1 = .ok () ∨
      (sim.apply_gate name wires params).1 = .error (arity_message name)) := by
  simp only [dispatch_names, List.mem_cons, List.not_mem_nil, or_false] at hmem
  rcases hmem with rfl | rfl | rfl | rfl | rfl | rfl | rfl | rfl | rfl | rfl | rfl
    | rfl | rfl <;>
    by_cases hw1 : wires.length = 1 <;> by_cases hw2 : wires.length = 2 <;>
    by_cases hp : params = [] <;>
    simp [QuantumSimulator.apply_gate, QuantumSimulator.gate_unitary, hw1, hw2, hp,
      req_wires, needs_param, arity_message]

lemma probabilities_final :
    ((((QuantumSimulator.new 2).apply_gate "X" [0] []).2).apply_gate
        "CNOT" [0, 1] []).2.state.probabilities = [0, 0, 0, 1] := by
  have hd : ((((QuantumSimulator.new 2).apply_gate "X" [0] []).2).apply_gate
      "CNOT" [0, 1] []).2.state.dim = 4 := rfl
  simp only [DensityMatrix.probabilities, hd, state_after_X_cnot, outer]
  rw [show List.range 4 = [0, 1, 2, 3] from rfl]
  norm_num

lemma trace_after_H_cnot00 :
    ((((QuantumSimulator.new 2).apply_gate "Hadamard" [0] []).2).apply_gate
        "CNOT" [0, 0] []).2.state.trace = 2 := by
  have hd : ((((QuantumSimulator.new 2).apply_gate "Hadamard" [0] []).2).apply_gate
      "CNOT" [0, 0] []).2.state.dim = 4 := rfl
  have hs : Real.sqrt 2 * Real.sqrt 2 = 2 := Real.mul_self_sqrt (by norm_num)
  have hne : Real.sqrt 2 ≠ 0 := by positivity
  simp only [DensityMatrix.trace, hd, state_after_H_cnot00, traceN_outer]
  simp [Finset.sum_range_succ, Complex.conj_ofReal, map_ofNat]
  norm_cast
  field_simp

lemma idN_unitary (d : ℕ) : unitaryOn d (idN d) := by
  unfold unitaryOn
  rw [adjointM_idN, idN_matMul_left]
  funext i j
  simp only [idN]
  split_ifs <;> first | rfl | (exfalso; omega)

lemma gate_unitary_single {sim : QuantumSimulator} {name : String}
    {wires : List ℕ} {params : List ℝ} (hmem : name ∈ single_qubit_names)
    (hw : wires.length = 1) (hp : needs_param name = true → params ≠ []) :
    ∃ g : Mat, sim.gate_unitary name wires params =
      .ok (build_single_qubit_unitary g (wires.getD 0 0) sim.num_qubits) := by
  simp only [single_qubit_names, List.mem_cons, List.not_mem_nil, or_false] at hmem
  rcases hmem with rfl | rfl | rfl | rfl | rfl | rfl | rfl | rfl | rfl | rfl | rfl
  · exact ⟨pauli_x, by simp [QuantumSimulator.gate_unitary, hw]⟩
  · exact ⟨pauli_x, by simp [QuantumSimulator.gate_unitary, hw]⟩
  · exact ⟨pauli_y, by simp [QuantumSimulator.gate_unitary, hw]⟩
  · exact ⟨pauli_y, by simp [QuantumSimulator.gate_unitary, hw]⟩
  · exact ⟨pauli_z, by simp [QuantumSimulator.gate_unitary, hw]⟩
  · exact ⟨pauli_z, by simp [QuantumSimulator.gate_unitary, hw]⟩
  · exact ⟨hadamard, by simp [QuantumSimulator.gate_unitary, hw]⟩
  · exact ⟨hadamard, by simp [QuantumSimulator.gate_unitary, hw]⟩
  · exact ⟨rx (params.getD 0 0),
      by simp [QuantumSimulator.gate_unitary, hw, hp rfl]⟩
  · exact ⟨ry (params.getD 0 0),
      by simp [QuantumSimulator.gate_unitary, hw, hp rfl]⟩
  · exact ⟨rz (params.getD 0 0),
      by simp [QuantumSimulator.gate_unitary, hw, hp rfl]⟩

/-! ## Claim theorems -/

/-- C1 counterexample: the §4.2 catalog includes CZ (its 4×4 matrix `cz` is
even defined in the gate catalog), but `apply_gate("CZ", [0, 1], [])` — CZ's
required two wires and zero parameters — returns an UnknownGate-kind error:
the dispatcher has no CZ arm. -/
theorem C1_cz_unknown :
    ((QuantumSimulator.new 2).apply_gate "CZ" [0, 1] []).1 =
      .error ("Unknown gate: " ++ "CZ") ∧
    is_unknown_gate_error ((QuantumSimulator.new 2).apply_gate "CZ" [0, 1] []).1 :=
  ⟨rfl, ⟨"CZ", rfl⟩⟩

/-- C1 amended: every gate name the dispatcher actually recognizes (the §4.2
catalog minus CZ and Identity, aliases included), called with its required
wire count and a parameter list its arm accepts — on a simulator with at
least one qubit and, for CNOT/CX, with both wires in range, since outside
that domain the Rust call aborts instead of returning — resolves against the
catalog and returns success; the name "CZ" itself is never recognized and
always yields an UnknownGate-kind error. -/
theorem C1_catalog_dispatch :
    (∀ (sim : QuantumSimulator) (name : String) (wires : List ℕ)
        (params : List ℝ), name ∈ dispatch_names →
        1 ≤ sim.num_qubits → cnot_wires_in_range sim.num_qubits name wires →
        wires.length = req_wires name → (needs_param name = true → params ≠ []) →
        (sim.apply_gate name wires params).1 = .ok ()) ∧
    (∀ (sim : QuantumSimulator) (wires : List ℕ) (params : List ℝ),
        (sim.apply_gate "CZ" wires params).1 =
          .error ("Unknown gate: " ++ "CZ")) :=
  ⟨fun sim name wires params hmem hn hrange hw hp =>
      (apply_gate_ok_iff sim name wires params hmem hn hrange).1.mpr ⟨hw, hp⟩,
   fun _ _ _ => rfl⟩

/-- C1 witness: "H" with one wire and no parameters succeeds. -/
theorem C1_catalog_dispatch_witness :
    ((QuantumSimulator.new 2).apply_gate "H" [1] []).1 = .ok () :=
  C1_catalog_dispatch.1 (QuantumSimulator.new 2) "H" [1] [] (by decide)
    (by decide) (by intro h; simp at h) rfl (by decide)

/-- C2 counterexample: the claim says "X" with a non-empty parameter list and
"RX" with two parameters each return an ArityMismatch-kind error; in fact
both calls succeed — the "X" arm never inspects `params`, and the "RX" arm
only rejects an empty parameter list. -/
theorem C2_param_check_missing :
    ((QuantumSimulator.new 1).apply_gate "X" [0] [(0.5 : ℝ)]).1 = .ok () ∧
    ((QuantumSimulator.new 1).apply_gate "RX" [0] [(0.1 : ℝ), (0.2 : ℝ)]).1 =
      .ok () :=
  ⟨rfl, rfl⟩

/-- C2 amended: for every recognized gate — on a simulator with at least one
qubit and, for CNOT/CX, with both wires in range, since outside that domain
the Rust call aborts instead of returning — `apply_gate` succeeds exactly
when the wire count matches the gate's fixed arity and, for the rotation
gates only, the parameter list is non-empty; any failure is the gate's fixed
ArityMismatch-kind message.  Parameter surplus is never checked. -/
theorem C2_arity_characterization (sim : QuantumSimulator) (name : String)
    (wires : List ℕ) (params : List ℝ) (hmem : name ∈ dispatch_names)
    (hn : 1 ≤ sim.num_qubits)
    (hrange : cnot_wires_in_range sim.num_qubits name wires) :
    (((sim.apply_gate name wires params).1 = .ok ()) ↔
      (wires.length = req_wires name ∧ (needs_param name = true → params ≠ []))) ∧
    ((sim.apply_gate name wires params).1 = .ok () ∨
      (sim.apply_gate name wires params).1 = .error (arity_message name)) :=
  apply_gate_ok_iff sim name wires params hmem hn hrange

/-- C2 witness: the characterization at "RX" with one wire and no
parameters. -/
theorem C2_arity_characterization_witness :
    ((((QuantumSimulator.new 1).apply_gate "RX" [0] ([] : List ℝ)).1 = .ok ()) ↔
      (([0] : List ℕ).length = req_wires "RX" ∧
        (needs_param "RX" = true → ([] : List ℝ) ≠ []))) ∧
    (((QuantumSimulator.new 1).apply_gate "RX" [0] ([] : List ℝ)).1 = .ok () ∨
      ((QuantumSimulator.new 1).apply_gate "RX" [0] ([] : List ℝ)).1 =
        .error (arity_message "RX")) :=
  C2_arity_characterization (QuantumSimulator.new 1) "RX" [0] [] (by decide)
    (by decide) (by intro h; simp at h)

/-- C3: whenever `apply_gate` returns an error, the simulator — its density
matrix and qubit count — is exactly the one before the call, and
`get_metrics` is unchanged. -/
theorem C3_error_leaves_state (sim : QuantumSimulator) (name : String)
    (wires : List ℕ) (params : List ℝ) (e : String)
    (h : (sim.apply_gate name wires params).1 = .error e) :
    (sim.apply_gate name wires params).2 = sim ∧
    ((sim.apply_gate name wires params).2).get_metrics = sim.get_metrics := by
  have h2 := apply_gate_error_state sim name wires params e h
  exact ⟨h2, by rw [h2]⟩

/-- C3 witness: `apply_gate("RX", [0], [])` errors and leaves the simulator
and its metrics unchanged. -/
theorem C3_error_leaves_state_witness :
    ((QuantumSimulator.new 1).apply_gate "RX" [0] []).1 =
        .error "RX requires 1 wire and 1 parameter" ∧
    ((QuantumSimulator.new 1).apply_gate "RX" [0] []).2 = QuantumSimulator.new 1 ∧
    (((QuantumSimulator.new 1).apply_gate "RX" [0] []).2).get_metrics =
      (QuantumSimulator.new 1).get_metrics :=
  ⟨rfl,
   (C3_error_leaves_state (QuantumSimulator.new 1) "RX" [0] []
      "RX requires 1 wire and 1 parameter" rfl).1,
   (C3_error_leaves_state (QuantumSimulator.new 1) "RX" [0] []
      "RX requires 1 wire and 1 parameter" rfl).2⟩

/-- C4: `apply_idle_noise` is exactly amplitude damping at rate
`0.05 · f` followed by dephasing at rate `0.02 · f`, in that order, where
the suppression factor `f` is 0.2 when protected and 1.0 otherwise. -/
theorem C4_idle_noise_order (rho : DensityMatrix) (wire : ℕ) (prot : Bool) :
    apply_idle_noise rho wire prot =
      apply_dephasing
        (apply_amplitude_damping rho wire (0.05 * (if prot then 0.2 else 1.0)))
        wire (0.02 * (if prot then 0.2 else 1.0)) := rfl

/-- C5: for every rate in [0, 1], each of the three Kraus constructions
satisfies the completeness relation `Σ Kᵢ†Kᵢ = I₂` exactly. -/
theorem C5_kraus_completeness (rate : ℝ) (h0 : 0 ≤ rate) (h1 : rate ≤ 1) :
    kraus_sum (amplitude_damping_kraus rate) = idN 2 ∧
    kraus_sum (dephasing_kraus rate) = idN 2 ∧
    kraus_sum (depolarizing_kraus rate) = idN 2 :=
  ⟨amplitude_damping_complete h0 h1, dephasing_complete h0 h1,
   depolarizing_complete h0 h1⟩

/-- C5 witness: completeness at rate 1/2. -/
theorem C5_kraus_completeness_witness :
    (0 : ℝ) ≤ 1 / 2 ∧ (1 / 2 : ℝ) ≤ 1 ∧
    (kraus_sum (amplitude_damping_kraus (1 / 2)) = idN 2 ∧
     kraus_sum (dephasing_kraus (1 / 2)) = idN 2 ∧
     kraus_sum (depolarizing_kraus (1 / 2)) = idN 2) :=
  ⟨by norm_num, by norm_num,
   C5_kraus_completeness (1 / 2) (by norm_num) (by norm_num)⟩

/-- C6: each noise application with rate ≤ 0 is an exact no-op. -/
theorem C6_noop_nonpositive_rate (rho : DensityMatrix) (wire : ℕ) (rate : ℝ)
    (h : rate ≤ 0) :
    apply_amplitude_damping rho wire rate = rho ∧
    apply_dephasing rho wire rate = rho ∧
    apply_depolarizing rho wire rate = rho :=
  ⟨if_pos h, if_pos h, if_pos h⟩

/-- C6 witness: rate 0 on a one-qubit state. -/
theorem C6_noop_nonpositive_rate_witness :
    apply_amplitude_damping (DensityMatrix.new 1) 0 0 = DensityMatrix.new 1 ∧
    apply_dephasing (DensityMatrix.new 1) 0 0 = DensityMatrix.new 1 ∧
    apply_depolarizing (DensityMatrix.new 1) 0 0 = DensityMatrix.new 1 :=
  C6_noop_nonpositive_rate (DensityMatrix.new 1) 0 0 (by norm_num)

/-- C7: the simulator's noise entry points silently return the simulator
unchanged (no error value exists to signal) when the wire is out of
range. -/
theorem C7_out_of_range_noop (sim : QuantumSimulator) (wire : ℕ) (prot : Bool)
    (lam p : ℝ) (h : sim.num_qubits ≤ wire) :
    sim.apply_noise wire prot = sim ∧
    sim.apply_phase_damping wire lam = sim ∧
    sim.apply_depolarizing wire p = sim :=
  ⟨if_pos h, if_pos h, if_pos h⟩

/-- C7 witness: wire 5 on a two-qubit simulator. -/
theorem C7_out_of_range_noop_witness :
    (QuantumSimulator.new 2).apply_noise 5 true = QuantumSimulator.new 2 ∧
    (QuantumSimulator.new 2).apply_phase_damping 5 (1 / 2) =
      QuantumSimulator.new 2 ∧
    (QuantumSimulator.new 2).apply_depolarizing 5 (1 / 2) =
      QuantumSimulator.new 2 :=
  C7_out_of_range_noop (QuantumSimulator.new 2) 5 true (1 / 2) (1 / 2)
    (by decide)

/-- C8 counterexample: the claim's "hence" clause fails as stated — a
sequence of accepted catalog-gate applications can change the trace.  On two
qubits, Hadamard on wire 0 followed by CNOT with control = target = 0 (both
calls return success) leaves the state with trace 2, not 1: the degenerate
CNOT builder writes a non-unitary matrix. -/
theorem C8_degenerate_cnot_breaks_trace :
    ((QuantumSimulator.new 2).apply_gate "Hadamard" [0] []).1 = .ok () ∧
    ((((QuantumSimulator.new 2).apply_gate "Hadamard" [0] []).2).apply_gate
        "CNOT" [0, 0] []).1 = .ok () ∧
    ((((QuantumSimulator.new 2).apply_gate "Hadamard" [0] []).2).apply_gate
        "CNOT" [0, 0] []).2.state.trace = 2 ∧
    ((((QuantumSimulator.new 2).apply_gate "Hadamard" [0] []).2).apply_gate
        "CNOT" [0, 0] []).2.state.trace ≠ 1 := by
  refine ⟨rfl, rfl, trace_after_H_cnot00, ?_⟩
  rw [trace_after_H_cnot00]
  norm_num

/-- C8 amended: `apply_unitary` replaces ρ by `U·ρ·U†`; for every `U` that is
unitary at ρ's dimension the trace is exactly preserved; and after any
sequence of catalog-gate applications starting from `new(n)` with `n ≥ 1` in
which every CNOT/CX call uses distinct in-range control and target wires, the
trace is exactly 1.  (The wire restriction is forced by the counterexample;
`n ≥ 1` is needed because with zero qubits any gate application aborts on a
dimension mismatch in the Rust code.) -/
theorem C8_unitary_trace :
    (∀ (ρ : DensityMatrix) (U : Mat),
        (ρ.apply_unitary U).matrix =
          matMul ρ.dim (matMul ρ.dim U ρ.matrix) (adjointM U)) ∧
    (∀ (ρ : DensityMatrix) (U : Mat), unitaryOn ρ.dim U →
        (ρ.apply_unitary U).trace = ρ.trace) ∧
    (∀ (n : ℕ) (reqs : List GateReq), 1 ≤ n →
        (∀ r ∈ reqs, valid_cnot_req n r) →
        (run_gates (QuantumSimulator.new n) reqs).state.trace = 1) := by
  refine ⟨fun ρ U => rfl, fun ρ U hU => apply_unitary_trace hU,
    fun n reqs hn hv => ?_⟩
  rw [run_gates_trace_aux reqs (QuantumSimulator.new n) hn rfl hv]
  exact new_trace n

/-- C8 witness: trace preservation for the identity unitary on one qubit and
for the one-gate sequence X on wire 0. -/
theorem C8_unitary_trace_witness :
    ((DensityMatrix.new 1).apply_unitary (idN ((DensityMatrix.new 1).dim))).trace
        = (DensityMatrix.new 1).trace ∧
    (run_gates (QuantumSimulator.new 1) [⟨"X", [0], []⟩]).state.trace = 1 :=
  ⟨C8_unitary_trace.2.1 (DensityMatrix.new 1) _ (idN_unitary _),
   C8_unitary_trace.2.2 1 [⟨"X", [0], []⟩] (by norm_num) (by
      intro r hr
      rw [List.mem_singleton] at hr
      subst hr
      intro hx
      simp at hx)⟩

/-- C9: on a fresh two-qubit simulator, X on wire 0 then CNOT(control 0,
target 1) both succeed and `probabilities()` is the length-4 vector putting
all mass exactly on basis index 3 (bit pattern 11, wire 0 = MSB). -/
theorem C9_x_cnot_probabilities :
    ((QuantumSimulator.new 2).apply_gate "X" [0] []).1 = .ok () ∧
    ((((QuantumSimulator.new 2).apply_gate "X" [0] []).2).apply_gate
        "CNOT" [0, 1] []).1 = .ok () ∧
    (((((QuantumSimulator.new 2).apply_gate "X" [0] []).2).apply_gate
        "CNOT" [0, 1] []).2.state.probabilities).length = 4 ∧
    ((((QuantumSimulator.new 2).apply_gate "X" [0] []).2).apply_gate
        "CNOT" [0, 1] []).2.state.probabilities = [0, 0, 0, 1] := by
  refine ⟨rfl, rfl, ?_, probabilities_final⟩
  rw [probabilities_final]
  rfl

/-- C10: a single-qubit catalog gate applied on an out-of-range wire is
silently accepted: `apply_gate` returns success, the operator built by
`build_single_qubit_unitary` is the `2^n × 2^n` identity, and the state is
left unchanged — in contrast to the noise operations' explicit range
check. -/
theorem C10_oob_wire_identity (sim : QuantumSimulator) (name : String)
    (wire : ℕ) (params : List ℝ) (hmem : name ∈ single_qubit_names)
    (hp : needs_param name = true → params ≠ [])
    (hn : 1 ≤ sim.num_qubits) (hw : sim.num_qubits ≤ wire)
    (hq : sim.state.num_qubits = sim.num_qubits)
    (hb : matBounded sim.state.dim sim.state.matrix) :
    (sim.apply_gate name [wire] params).1 = .ok () ∧
    (∀ g : Mat, build_single_qubit_unitary g wire sim.num_qubits =
      idN (2 ^ sim.num_qubits)) ∧
    (sim.apply_gate name [wire] params).2 = sim := by
  obtain ⟨g, hg⟩ := @gate_unitary_single sim name [wire] params hmem rfl hp
  have hid : ∀ g' : Mat, build_single_qubit_unitary g' wire sim.num_qubits =
      idN (2 ^ sim.num_qubits) := fun g' => build_single_oob g' hn hw
  refine ⟨by simp [QuantumSimulator.apply_gate, hg], hid, ?_⟩
  have hstate : sim.state.apply_unitary
      (build_single_qubit_unitary g ([wire].getD 0 0) sim.num_qubits) =
      sim.state := by
    rw [show [wire].getD 0 0 = wire from rfl, hid g,
      show idN (2 ^ sim.num_qubits) = idN sim.state.dim from by
        rw [DensityMatrix.dim, hq]]
    exact apply_unitary_idN hb
  unfold QuantumSimulator.apply_gate
  rw [hg]
  dsimp only
  rw [hstate]

/-- C10 witness: "X" on wire 5 of a fresh two-qubit simulator. -/
theorem C10_oob_wire_identity_witness :
    ((QuantumSimulator.new 2).apply_gate "X" [5] []).1 = .ok () ∧
    (∀ g : Mat, build_single_qubit_unitary g 5 (QuantumSimulator.new 2).num_qubits =
      idN (2 ^ (QuantumSimulator.new 2).num_qubits)) ∧
    ((QuantumSimulator.new 2).apply_gate "X" [5] []).2 = QuantumSimulator.new 2 :=
  C10_oob_wire_identity (QuantumSimulator.new 2) "X" 5 [] (by decide) (by decide)
    (by decide) (by decide) rfl (by
      intro i j hij
      have hd : (QuantumSimulator.new 2).state.dim = 4 := rfl
      rw [hd] at hij
      have hne : ¬(i = 0 ∧ j = 0) := by omega
      simp only [QuantumSimulator.new, DensityMatrix.new]
      rw [if_neg hne])
